import Mathlib

/-!
Shallow embedding of the sales-dashboard data pipeline
(`src/dashboard_app.py`): load → filter → aggregate → rank.

Rows of the pandas DataFrame become a `Row` / `SaleRecord` structure;
numeric columns are rationals; IEEE division by zero is modelled by the
extended-value type `FVal` (finite, +∞, -∞, NaN), matching float64
semantics for the ratio columns `gross_margin`, `revenue_per_unit` and
`contribution`.  `pd.Timestamp` order is chronological, i.e. the
lexicographic order on (year, month, day).  `DataFrame.sort_values` is
embedded by its documented contract: the output is a permutation of the
input ordered by the sort key, and with the default `kind='quicksort'`
the order of tied rows is unspecified (pandas documents only mergesort
and stable as stable kinds), so the sort is a relation, not a function.
`groupby` returns groups sorted ascending by key, as pandas does with
its default `sort=True`.
-/

namespace Dashboard

/-- Calendar date, standing for a `pd.Timestamp` at day resolution. -/
structure Date where
  year : Nat
  month : Nat
  day : Nat
  deriving DecidableEq

/-- Chronological order on dates: lexicographic on (year, month, day). -/
def Date.le (a b : Date) : Prop :=
  a.year < b.year ∨
    (a.year = b.year ∧
      (a.month < b.month ∨ (a.month = b.month ∧ a.day ≤ b.day)))

instance : DecidableRel Date.le := fun a b => by
  unfold Date.le; exact inferInstance

/-- Boolean form of `Date.le`, used as the sort comparator. -/
def Date.ble (a b : Date) : Bool := decide (Date.le a b)

/-- A raw row of the CSV: the eight source columns of a sale record. -/
structure Row where
  order_date : Date
  region : String
  customer_segment : String
  product_category : String
  sub_category : String
  revenue : ℚ
  profit : ℚ
  units : ℚ
  discount : ℚ
  deriving DecidableEq

/-- Extended value: a float64 result that may be non-finite. -/
inductive FVal where
  | fin (q : ℚ)
  | pinf
  | ninf
  | nan
  deriving DecidableEq

/-- Float-style division of finite values: `p / 0` is `±∞` for `p ≠ 0`
and NaN for `0 / 0`; otherwise exact rational division. -/
def fdiv (p q : ℚ) : FVal :=
  if q ≠ 0 then .fin (p / q)
  else if 0 < p then .pinf
  else if p < 0 then .ninf
  else .nan

/-- Whether an extended value is finite. -/
def FVal.isFinite : FVal → Bool
  | .fin _ => true
  | _ => false

/-- The rational carried by a finite value (0 for non-finite ones). -/
def FVal.toQ : FVal → ℚ
  | .fin q => q
  | _ => 0

/-- Float-style addition on extended values. -/
def FVal.add : FVal → FVal → FVal
  | .nan, _ => .nan
  | _, .nan => .nan
  | .pinf, .ninf => .nan
  | .ninf, .pinf => .nan
  | .pinf, _ => .pinf
  | _, .pinf => .pinf
  | .ninf, _ => .ninf
  | _, .ninf => .ninf
  | .fin a, .fin b => .fin (a + b)

/-- Sum of a list of extended values. -/
def FVal.sum (l : List FVal) : FVal := l.foldl FVal.add (.fin 0)

/-- Division of an extended value by a count; a count of zero gives NaN
(the mean of an empty selection). -/
def FVal.divNat (v : FVal) (n : Nat) : FVal :=
  if n = 0 then .nan
  else
    match v with
    | .fin q => .fin (q / (n : ℚ))
    | .pinf => .pinf
    | .ninf => .ninf
    | .nan => .nan

/-- Mean with pandas `skipna=True` semantics: NaN entries are dropped
from both the sum and the count; infinities are kept. -/
def nanmean (l : List FVal) : FVal :=
  FVal.divNat (FVal.sum (l.filter (fun v => v ≠ FVal.nan)))
    ((l.filter (fun v => v ≠ FVal.nan)).length)

/-- A sale record after loading: the raw row plus the two derived
columns `month` and `gross_margin` (dashboard_app.py lines 16-17). -/
structure SaleRecord extends Row where
  month : Date
  gross_margin : FVal
  deriving DecidableEq

/-- Derivation step of `load_data`: truncate `order_date` to the first
day of its calendar month and compute `gross_margin = profit / revenue`. -/
def addDerived (r : Row) : SaleRecord :=
  { toRow := r
    month := ⟨r.order_date.year, r.order_date.month, 1⟩
    gross_margin := fdiv r.profit r.revenue }

/-- Documented contract of `DataFrame.sort_values` by a single key with
the default `kind='quicksort'`: the output is a permutation of the
input that is pairwise ordered by the comparator.  The default
algorithm is not stable (pandas documents only `mergesort` and `stable`
as stable kinds), so the relative order of tied rows is unspecified:
the call is embedded as this relation between input and output, not as
a particular sorting function. -/
def sort_values {α : Type} (le : α → α → Bool)
    (input output : List α) : Prop :=
  output.Perm input ∧ output.Pairwise (fun a b => le a b = true)

/-- Embedding of `load_data` (lines 12-18), relating the source rows to
every output the code may produce: some `sort_values` output of the
rows ordered ascending by `order_date` (tie order unspecified), with
the `month` and `gross_margin` columns then derived on each row. -/
def load_data (rows : List Row) (out : List SaleRecord) : Prop :=
  ∃ s, sort_values (fun a b => Date.ble a.order_date b.order_date) rows s ∧
    out = s.map addDerived

/-- The sidebar filter criteria: date range plus allow-lists. -/
structure Criteria where
  start_date : Date
  end_date : Date
  regions : List String
  segments : List String
  categories : List String
  deriving DecidableEq

/-- Per-row filter mask (lines 76-82): conjunction of the date-range
bounds and the three `isin` membership tests. -/
def rowMask (c : Criteria) (r : SaleRecord) : Bool :=
  Date.ble c.start_date r.order_date &&
    Date.ble r.order_date c.end_date &&
    decide (r.region ∈ c.regions) &&
    decide (r.customer_segment ∈ c.segments) &&
    decide (r.product_category ∈ c.categories)

/-- Embedding of `filtered = df.loc[mask]` (line 83). -/
def filter_data (df : List SaleRecord) (c : Criteria) : List SaleRecord :=
  df.filter (rowMask c)

/-- Scalar KPI `total_revenue` (line 90). -/
def total_revenue (view : List SaleRecord) : ℚ := (view.map (·.revenue)).sum

/-- Scalar KPI `total_profit` (line 91). -/
def total_profit (view : List SaleRecord) : ℚ := (view.map (·.profit)).sum

/-- Scalar KPI `total_units` (line 92). -/
def total_units (view : List SaleRecord) : ℚ := (view.map (·.units)).sum

/-- Scalar KPI `avg_discount` (line 93): pandas mean of the discount
column. -/
def avg_discount (view : List SaleRecord) : FVal :=
  nanmean (view.map (fun r => FVal.fin r.discount))

/-- Scalar KPI `gross_margin` mean (line 94): pandas mean of the
`gross_margin` column, skipping NaN. -/
def avg_gross_margin (view : List SaleRecord) : FVal :=
  nanmean (view.map (·.gross_margin))

/-- The five scalar KPIs of the dashboard (lines 90-94). -/
structure KPISummary where
  total_revenue : ℚ
  total_profit : ℚ
  total_units : ℚ
  avg_discount : FVal
  avg_gross_margin : FVal
  deriving DecidableEq

/-- Embedding of the KPI block (lines 90-94). -/
def summarize (view : List SaleRecord) : KPISummary :=
  { total_revenue := total_revenue view
    total_profit := total_profit view
    total_units := total_units view
    avg_discount := avg_discount view
    avg_gross_margin := avg_gross_margin view }

/-- Comparator for string group keys (pandas sorts keys ascending). -/
def strLe (a b : String) : Bool := decide (a ≤ b)

/-- Embedding of `view.groupby(key, as_index=False)[col].agg(...)` with
the default `sort=True`: the distinct key values sorted ascending, each
paired with the aggregate of the rows carrying that key. -/
def groupByAgg {K A : Type} [DecidableEq K] (le : K → K → Bool)
    (view : List SaleRecord) (key : SaleRecord → K)
    (agg : List SaleRecord → A) : List (K × A) :=
  (((view.map key).dedup).mergeSort le).map
    (fun k => (k, agg (view.filter (fun r => decide (key r = k)))))

/-- Embedding of `revenue_by_month` (lines 114-116): revenue summed by
month. -/
def revenue_by_month (view : List SaleRecord) : List (Date × ℚ) :=
  groupByAgg Date.ble view (·.month) (fun g => (g.map (·.revenue)).sum)

/-- Embedding of `margin_by_category` (lines 129-131): mean gross
margin by product category. -/
def margin_by_category (view : List SaleRecord) : List (String × FVal) :=
  groupByAgg strLe view (·.product_category)
    (fun g => nanmean (g.map (·.gross_margin)))

/-- Embedding of `revenue_by_region` (lines 145-147): revenue summed by
region. -/
def revenue_by_region (view : List SaleRecord) : List (String × ℚ) :=
  groupByAgg strLe view (·.region) (fun g => (g.map (·.revenue)).sum)

/-- A ranked row (lines 172-176): a sale record plus the two derived
ratio columns added by `assign`. -/
structure RankedRow extends SaleRecord where
  revenue_per_unit : FVal
  contribution : FVal
  deriving DecidableEq

/-- The `assign` step of the ranking pipeline (lines 173-176). -/
def assignDerived (total : ℚ) (r : SaleRecord) : RankedRow :=
  { toSaleRecord := r
    revenue_per_unit := fdiv r.revenue r.units
    contribution := fdiv r.revenue total }

/-- Descending-revenue comparator for
`sort_values ("revenue", ascending=False)`. -/
def revDesc (a b : RankedRow) : Bool := decide (b.revenue ≤ a.revenue)

/-- One admissible full ranked view before truncation (lines 172-177):
derived columns assigned, then one particular `sort_values` output
(ties resolved in source order; `rank_full_admissible` shows it
satisfies the contract).  Used only by properties that are invariant
under the contract's unspecified tie order. -/
def rank_full (view : List SaleRecord) (total : ℚ) : List RankedRow :=
  (view.map (assignDerived total)).mergeSort revDesc

/-- One admissible ranked table (lines 172-179): `rank_full` truncated
to the first `limit` rows (`head(15)` in the source). -/
def rank (view : List SaleRecord) (total : ℚ) (limit : Nat) : List RankedRow :=
  (rank_full view total).take limit

/-- Embedding of `ranked` (lines 172-179), relating the filtered view
to every output the code may produce: the two derived ratio columns are
assigned, the rows are ordered descending by revenue by some
`sort_values` output (tie order unspecified), and the result is
truncated to the first `limit` rows. -/
def ranked (view : List SaleRecord) (total : ℚ) (limit : Nat)
    (out : List RankedRow) : Prop :=
  ∃ s, sort_values revDesc (view.map (assignDerived total)) s ∧
    out = s.take limit

/-- What `main` hands to the presentation layer: either the no-data
warning of line 86, or the aggregates and the ranked table. -/
inductive DashboardOutput where
  | noData
  | rendered (kpis : KPISummary) (byMonth : List (Date × ℚ))
      (byCategory : List (String × FVal)) (byRegion : List (String × ℚ))
      (ranked : List RankedRow)
  deriving DecidableEq

/-- Embedding of the data flow of `main` (lines 76-179): filter, then
either short-circuit on an empty view (lines 85-87) or compute the
KPIs, the grouped aggregates and the ranked table. -/
def main_pipeline (df : List SaleRecord) (c : Criteria) : DashboardOutput :=
  let filtered := filter_data df c
  if filtered.isEmpty then .noData
  else
    .rendered (summarize filtered) (revenue_by_month filtered)
      (margin_by_category filtered) (revenue_by_region filtered)
      (rank filtered (total_revenue filtered) 15)

/-! ### Concrete demo data (the spec's end-to-end scenario rows) -/

/-- Demo source row A of the spec's end-to-end scenario. -/
def rowA : Row :=
  { order_date := ⟨2024, 1, 15⟩
    region := "North"
    customer_segment := "SMB"
    product_category := "Tech"
    sub_category := "Phones"
    revenue := 100
    profit := 20
    units := 10
    discount := 0 }

/-- Demo source row B of the spec's end-to-end scenario. -/
def rowB : Row :=
  { order_date := ⟨2024, 2, 10⟩
    region := "South"
    customer_segment := "Corp"
    product_category := "Office"
    sub_category := "Chairs"
    revenue := 200
    profit := 50
    units := 20
    discount := 0 }

/-- Demo source row with zero revenue and zero units, exercising the
non-finite ratio columns. -/
def rowC : Row :=
  { order_date := ⟨2024, 3, 1⟩
    region := "North"
    customer_segment := "SMB"
    product_category := "Tech"
    sub_category := "Phones"
    revenue := 0
    profit := 5
    units := 0
    discount := 0 }

/-- Demo sale record for row A. -/
def recA : SaleRecord := addDerived rowA

/-- Demo sale record for row B. -/
def recB : SaleRecord := addDerived rowB

/-- Demo sale record for row C (infinite gross margin). -/
def recC : SaleRecord := addDerived rowC

/-- Demo source row D: same order date and revenue as row E but a
different region, exercising tie order. -/
def rowD : Row :=
  { order_date := ⟨2024, 5, 1⟩
    region := "East"
    customer_segment := "SMB"
    product_category := "Tech"
    sub_category := "Phones"
    revenue := 100
    profit := 20
    units := 10
    discount := 0 }

/-- Demo source row E: tied with row D on order date and revenue. -/
def rowE : Row :=
  { order_date := ⟨2024, 5, 1⟩
    region := "West"
    customer_segment := "SMB"
    product_category := "Tech"
    sub_category := "Phones"
    revenue := 100
    profit := 20
    units := 10
    discount := 0 }

/-- Demo sale record for row D. -/
def recD : SaleRecord := addDerived rowD

/-- Demo sale record for row E. -/
def recE : SaleRecord := addDerived rowE

/-- Demo criteria whose `regions` allow-list is empty. -/
def emptyRegionCriteria : Criteria :=
  { start_date := ⟨2024, 1, 1⟩
    end_date := ⟨2024, 12, 31⟩
    regions := []
    segments := ["SMB", "Corp"]
    categories := ["Tech", "Office"] }

/-! ### Helper lemmas about the date order -/

theorem Date.ble_iff (a b : Date) : Date.ble a b = true ↔ Date.le a b := by
  simp [Date.ble]

theorem Date.le_trans (a b c : Date) (h1 : Date.le a b) (h2 : Date.le b c) :
    Date.le a c := by
  unfold Date.le at h1 h2 ⊢; omega

theorem Date.ble_trans (a b c : Date) (h1 : Date.ble a b) (h2 : Date.ble b c) :
    Date.ble a c := by
  rw [Date.ble_iff] at h1 h2 ⊢
  exact Date.le_trans a b c h1 h2

theorem Date.ble_total (a b : Date) : Date.ble a b || Date.ble b a := by
  simp only [Date.ble, Bool.or_eq_true, decide_eq_true_eq]
  unfold Date.le; omega

theorem Date.le_antisymm (a b : Date) (h1 : Date.le a b) (h2 : Date.le b a) :
    a = b := by
  obtain ⟨ay, am, ad⟩ := a
  obtain ⟨cy, cm, cd⟩ := b
  simp only [Date.le] at h1 h2
  simp only [Date.mk.injEq]
  omega

/-! ### Helper lemmas about extended-value arithmetic -/

theorem FVal.isFinite_add_left (a b : FVal) (h : a.isFinite = false) :
    (a.add b).isFinite = false := by
  cases a <;> cases b <;> simp_all [FVal.add, FVal.isFinite]

theorem FVal.isFinite_add_right (a b : FVal) (h : b.isFinite = false) :
    (a.add b).isFinite = false := by
  cases a <;> cases b <;> simp_all [FVal.add, FVal.isFinite]

theorem FVal.foldl_add_nonfin (l : List FVal) (a : FVal)
    (h : a.isFinite = false) : (l.foldl FVal.add a).isFinite = false := by
  induction l generalizing a with
  | nil => exact h
  | cons x xs ih => exact ih (FVal.add a x) (FVal.isFinite_add_left a x h)

theorem FVal.foldl_add_mem_nonfin (l : List FVal) (v : FVal) (hv : v ∈ l)
    (h : v.isFinite = false) (a : FVal) :
    (l.foldl FVal.add a).isFinite = false := by
  induction l generalizing a with
  | nil => cases hv
  | cons x xs ih =>
    rcases List.mem_cons.mp hv with rfl | hmem
    · exact FVal.foldl_add_nonfin xs (FVal.add a v)
        (FVal.isFinite_add_right a v h)
    · exact ih hmem (FVal.add a x)

theorem FVal.sum_nonfin (l : List FVal) (v : FVal) (hv : v ∈ l)
    (h : v.isFinite = false) : (FVal.sum l).isFinite = false :=
  FVal.foldl_add_mem_nonfin l v hv h (.fin 0)

theorem FVal.divNat_nonfin (v : FVal) (n : Nat) (h : v.isFinite = false) :
    (v.divNat n).isFinite = false := by
  unfold FVal.divNat
  by_cases hn : n = 0
  · simp [hn, FVal.isFinite]
  · cases v with
    | fin q => simp [FVal.isFinite] at h
    | pinf => simp [hn, FVal.isFinite]
    | ninf => simp [hn, FVal.isFinite]
    | nan => simp [hn, FVal.isFinite]

theorem FVal.foldl_add_fin (l : List ℚ) (a : ℚ) :
    (l.map FVal.fin).foldl FVal.add (.fin a) = .fin (a + l.sum) := by
  induction l generalizing a with
  | nil => simp
  | cons x xs ih =>
    simp only [List.map_cons, List.foldl_cons, FVal.add, List.sum_cons, ih]
    rw [add_assoc]

theorem FVal.sum_map_fin (l : List ℚ) :
    FVal.sum (l.map FVal.fin) = .fin l.sum := by
  unfold FVal.sum
  rw [FVal.foldl_add_fin, zero_add]

theorem FVal.sum_map_fin_comp {α : Type} (g : α → ℚ) (l : List α) :
    FVal.sum (l.map (fun a => FVal.fin (g a))) = FVal.fin ((l.map g).sum) := by
  rw [show (fun a => FVal.fin (g a)) = FVal.fin ∘ g from rfl, ← List.map_map]
  exact FVal.sum_map_fin _

theorem FVal.all_finite_eq_map_fin (l : List FVal)
    (h : ∀ v ∈ l, v.isFinite = true) : l = (l.map FVal.toQ).map FVal.fin := by
  induction l with
  | nil => rfl
  | cons v vs ih =>
    have hv := h v (List.mem_cons_self v vs)
    cases v with
    | fin q =>
      simp only [List.map_cons, FVal.toQ, List.cons.injEq, true_and]
      exact ih (fun w hw => h w (List.mem_cons_of_mem _ hw))
    | pinf => simp [FVal.isFinite] at hv
    | ninf => simp [FVal.isFinite] at hv
    | nan => simp [FVal.isFinite] at hv

/-! ### Helper lemmas about grouped sums -/

theorem sum_map_add {K : Type} (ks : List K) (f g : K → ℚ) :
    (ks.map (fun k => f k + g k)).sum = (ks.map f).sum + (ks.map g).sum := by
  induction ks with
  | nil => simp
  | cons k ks ih => simp [ih]; ring

theorem sum_map_ite_eq {K : Type} [DecidableEq K] (ks : List K) (k0 : K)
    (q : ℚ) (hnd : ks.Nodup) (hmem : k0 ∈ ks) :
    (ks.map (fun k => if k0 = k then q else 0)).sum = q := by
  induction ks with
  | nil => cases hmem
  | cons k ks ih =>
    rcases List.mem_cons.mp hmem with rfl | hmem'
    · simp only [List.map_cons, List.sum_cons]
      have hz : (ks.map (fun k => if k0 = k then q else 0)).sum = 0 := by
        apply List.sum_eq_zero
        intro x hx
        obtain ⟨k', hk', rfl⟩ := List.mem_map.mp hx
        have : k0 ≠ k' := fun h => (List.nodup_cons.mp hnd).1 (h ▸ hk')
        simp [this]
      rw [hz, add_zero]
      simp
    · have hne : k0 ≠ k := fun h =>
        (List.nodup_cons.mp hnd).1 (h ▸ hmem')
      simp only [List.map_cons, List.sum_cons, if_neg hne, zero_add]
      exact ih (List.nodup_cons.mp hnd).2 hmem'

theorem sum_groups {K : Type} [DecidableEq K] (ks : List K)
    (view : List SaleRecord) (key : SaleRecord → K) (val : SaleRecord → ℚ)
    (hnd : ks.Nodup) (hcov : ∀ r ∈ view, key r ∈ ks) :
    (ks.map
      (fun k => ((view.filter (fun r => decide (key r = k))).map val).sum)).sum
      = (view.map val).sum := by
  induction view with
  | nil => simp
  | cons r rest ih =>
    have hsplit : ∀ k : K,
        (((r :: rest).filter (fun x => decide (key x = k))).map val).sum
          = (if key r = k then val r else 0)
            + ((rest.filter (fun x => decide (key x = k))).map val).sum := by
      intro k
      by_cases h : key r = k
      · simp [List.filter_cons, h]
      · simp [List.filter_cons, h]
    rw [List.map_congr_left (fun k _ => hsplit k), sum_map_add,
      sum_map_ite_eq ks (key r) (val r) hnd (hcov r (List.mem_cons_self r rest)),
      ih (fun x hx => hcov x (List.mem_cons_of_mem r hx))]
    simp

/-! ### Generic facts about `groupByAgg` -/

theorem groupByAgg_keys {K A : Type} [DecidableEq K] (le : K → K → Bool)
    (htrans : ∀ a b c, le a b → le b c → le a c)
    (htotal : ∀ a b, le a b || le b a)
    (view : List SaleRecord) (key : SaleRecord → K)
    (agg : List SaleRecord → A) :
    ((groupByAgg le view key agg).map Prod.fst).Pairwise
      (fun a b => le a b = true ∧ a ≠ b) := by
  have hfst : (groupByAgg le view key agg).map Prod.fst
      = ((view.map key).dedup).mergeSort le := by
    simp only [groupByAgg, List.map_map]
    exact List.map_id _
  rw [hfst]
  have hsorted : (((view.map key).dedup).mergeSort le).Pairwise
      (fun a b => le a b = true) := by
    simpa using List.sorted_mergeSort htrans htotal ((view.map key).dedup)
  have hnd : (((view.map key).dedup).mergeSort le).Nodup :=
    (List.mergeSort_perm ((view.map key).dedup) le).symm.nodup
      (List.nodup_dedup (view.map key))
  exact hsorted.and hnd

theorem groupByAgg_sum_eq {K : Type} [DecidableEq K] (le : K → K → Bool)
    (view : List SaleRecord) (key : SaleRecord → K) (val : SaleRecord → ℚ) :
    ((groupByAgg le view key
        (fun g => (g.map val).sum)).map Prod.snd).sum = (view.map val).sum := by
  have hsnd : (groupByAgg le view key (fun g => (g.map val).sum)).map Prod.snd
      = (((view.map key).dedup).mergeSort le).map
          (fun k => ((view.filter (fun r => decide (key r = k))).map val).sum) := by
    simp only [groupByAgg, List.map_map]
    rfl
  rw [hsnd]
  apply sum_groups
  · exact (List.mergeSort_perm ((view.map key).dedup) le).symm.nodup
      (List.nodup_dedup (view.map key))
  · intro r hr
    rw [List.mem_mergeSort, List.mem_dedup]
    exact List.mem_map.mpr ⟨r, hr, rfl⟩

/-! ### Helper lemmas about the string order -/

theorem strLe_trans (a b c : String) (h1 : strLe a b) (h2 : strLe b c) :
    strLe a c := by
  simp only [strLe, decide_eq_true_eq] at h1 h2 ⊢
  exact le_trans h1 h2

theorem strLe_total (a b : String) : strLe a b || strLe b a := by
  simp only [strLe, Bool.or_eq_true, decide_eq_true_eq]
  exact le_total a b

/-! ### Claim theorems -/

/-- C1: a record appears in `filter_data df c` iff it is a record of
`df` whose `order_date` lies between the two bounds inclusively, and
whose region, segment and category are in the respective allow-lists;
moreover the filtered view is a subsequence of `df` in the same order. -/
theorem C1_filter_correctness (df : List SaleRecord) (c : Criteria) :
    (∀ r : SaleRecord,
      r ∈ filter_data df c ↔
        r ∈ df ∧ Date.le c.start_date r.order_date ∧
          Date.le r.order_date c.end_date ∧ r.region ∈ c.regions ∧
          r.customer_segment ∈ c.segments ∧
          r.product_category ∈ c.categories) ∧
      (filter_data df c).Sublist df := by
  constructor
  · intro r
    simp [filter_data, List.mem_filter, rowMask, Date.ble, and_assoc]
  · exact List.filter_sublist df

/-- C4: revenue summed over the groups of `revenue_by_region` equals
the `total_revenue` KPI of `summarize`, for any non-empty view. -/
theorem C4_aggregate_consistency (view : List SaleRecord)
    (h : view ≠ []) :
    ((revenue_by_region view).map Prod.snd).sum
      = (summarize view).total_revenue := by
  have hsum := groupByAgg_sum_eq strLe view (·.region) (·.revenue)
  simpa [revenue_by_region, summarize, total_revenue] using hsum

/-- Witness for C4 on the two demo records. -/
theorem C4_aggregate_consistency_witness :
    (([recA, recB] : List SaleRecord) ≠ []) ∧
      ((revenue_by_region [recA, recB]).map Prod.snd).sum
        = (summarize [recA, recB]).total_revenue :=
  ⟨by decide, C4_aggregate_consistency [recA, recB] (by decide)⟩

/-- C5: an empty `regions` allow-list makes the filter return the empty
view, whatever the date range and the other allow-lists say. -/
theorem C5_empty_regions (df : List SaleRecord) (c : Criteria)
    (h : c.regions = []) : filter_data df c = [] := by
  apply List.filter_eq_nil_iff.mpr
  intro r hr
  simp [rowMask, h]

/-- Witness for C5: a one-record dataset and criteria with an empty
regions list but a full date range and non-empty other allow-lists. -/
theorem C5_empty_regions_witness :
    emptyRegionCriteria.regions = [] ∧
      filter_data [recA] emptyRegionCriteria = [] :=
  ⟨rfl, C5_empty_regions [recA] emptyRegionCriteria rfl⟩

/-- C6: an empty filtered view short-circuits the pipeline: the output
is the no-data signal, and none of the aggregates is computed. -/
theorem C6_short_circuit (df : List SaleRecord) (c : Criteria)
    (h : filter_data df c = []) :
    main_pipeline df c = DashboardOutput.noData := by
  simp [main_pipeline, h]

/-- Witness for C6: the empty-regions criteria produce the no-data
signal on a one-record dataset. -/
theorem C6_short_circuit_witness :
    main_pipeline [recA] emptyRegionCriteria = DashboardOutput.noData :=
  C6_short_circuit [recA] emptyRegionCriteria (by decide)

/-- C9: each of the three grouped aggregates lists its groups in
strictly ascending key order (pandas `groupby` with `sort=True`), so
the order is a function of the input alone, not first-seen order. -/
theorem C9_grouped_keys_sorted (view : List SaleRecord) :
    ((revenue_by_month view).map Prod.fst).Pairwise
        (fun a b => Date.le a b ∧ a ≠ b) ∧
      ((margin_by_category view).map Prod.fst).Pairwise (fun a b => a < b) ∧
      ((revenue_by_region view).map Prod.fst).Pairwise (fun a b => a < b) := by
  refine ⟨?_, ?_, ?_⟩
  · have hp := groupByAgg_keys Date.ble Date.ble_trans Date.ble_total view
      (·.month) (fun g => (g.map (·.revenue)).sum)
    exact hp.imp (fun h => ⟨(Date.ble_iff _ _).mp h.1, h.2⟩)
  · have hp := groupByAgg_keys strLe strLe_trans strLe_total view
      (·.product_category) (fun g => nanmean (g.map (·.gross_margin)))
    exact hp.imp (fun h =>
      lt_of_le_of_ne (by simpa [strLe] using h.1) h.2)
  · have hp := groupByAgg_keys strLe strLe_trans strLe_total view
      (·.region) (fun g => (g.map (·.revenue)).sum)
    exact hp.imp (fun h =>
      lt_of_le_of_ne (by simpa [strLe] using h.1) h.2)

/-! ### Helper lemmas about the ranking comparator -/

theorem revDesc_trans (a b c : RankedRow) (h1 : revDesc a b)
    (h2 : revDesc b c) : revDesc a c := by
  simp only [revDesc, decide_eq_true_eq] at h1 h2 ⊢
  exact le_trans h2 h1

theorem revDesc_total (a b : RankedRow) : revDesc a b || revDesc b a := by
  simp only [revDesc, Bool.or_eq_true, decide_eq_true_eq]
  exact le_total b.revenue a.revenue

/-- The deterministic `rank_full` is one admissible output of the
`sort_values` contract for the ranking sort. -/
theorem rank_full_admissible (view : List SaleRecord) (total : ℚ) :
    sort_values revDesc (view.map (assignDerived total))
      (rank_full view total) :=
  ⟨List.mergeSort_perm _ _,
    List.sorted_mergeSort revDesc_trans revDesc_total _⟩

/-- The deterministic `rank` is one admissible output of the `ranked`
contract. -/
theorem rank_admissible (view : List SaleRecord) (total : ℚ)
    (limit : Nat) : ranked view total limit (rank view total limit) :=
  ⟨rank_full view total, rank_full_admissible view total, rfl⟩

/-- C2 counterexample: the claim's tie-break clause fails on the code.
Records D and E are tied at revenue 100 with D first in the view, yet
the ranking contract (lines 172-179, `sort_values` with the default
unstable kind) also admits the output listing E's row before D's, in
which the tied pair does not appear in original dataset order. -/
theorem C2_rank_counterexample :
    ranked [recD, recE] 200 15
        [assignDerived 200 recE, assignDerived 200 recD] ∧
      ¬ [assignDerived 200 recD, assignDerived 200 recE].Sublist
          [assignDerived 200 recE, assignDerived 200 recD] := by
  constructor
  · refine ⟨[assignDerived 200 recE, assignDerived 200 recD],
      ⟨?_, by decide⟩, rfl⟩
    exact List.Perm.swap (assignDerived 200 recD) (assignDerived 200 recE) []
  · intro h
    have heq := h.eq_of_length rfl
    injection heq with hhead _
    have hr : rowD.region = rowE.region :=
      congrArg (fun rr : RankedRow => rr.region) hhead
    exact absurd hr (by decide)

/-- C2 (amended): every output the ranking pipeline may produce — some
descending `sort_values` output of the assigned view truncated to
`limit` rows — has at most `limit` rows (15 in the source), is pairwise
descending by revenue (tie order unspecified, as the default sort is
not stable), and each of its rows is a row of the view with no field
altered except the two added derived columns. -/
theorem C2_rank_invariant_amended (view : List SaleRecord) (total : ℚ)
    (limit : Nat) (out : List RankedRow)
    (hout : ranked view total limit out) :
    out.length ≤ limit ∧
      out.Pairwise (fun a b => b.revenue ≤ a.revenue) ∧
      ∀ rr ∈ out,
        rr.toSaleRecord ∈ view ∧
          rr.revenue_per_unit = fdiv rr.revenue rr.units ∧
          rr.contribution = fdiv rr.revenue total := by
  obtain ⟨s, ⟨hperm, hsort⟩, rfl⟩ := hout
  refine ⟨List.length_take_le limit s, ?_, ?_⟩
  · exact (List.Pairwise.sublist (List.take_sublist _ _) hsort).imp
      (fun h => by simpa [revDesc] using h)
  · intro rr hrr
    have h1 : rr ∈ s := (List.take_sublist _ _).subset hrr
    have h2 : rr ∈ view.map (assignDerived total) := hperm.mem_iff.mp h1
    obtain ⟨r, hr, rfl⟩ := List.mem_map.mp h2
    exact ⟨hr, rfl, rfl⟩

/-- Witness for the amended C2: on the two demo records, already in
descending revenue order, the assigned view itself satisfies the
ranking contract and the conclusions hold. -/
theorem C2_rank_invariant_amended_witness :
    ([recB, recA].map (assignDerived 300)).length ≤ 15 ∧
      ([recB, recA].map (assignDerived 300)).Pairwise
        (fun a b => b.revenue ≤ a.revenue) := by
  have hc : ranked [recB, recA] 300 15
      ([recB, recA].map (assignDerived 300)) :=
    ⟨[recB, recA].map (assignDerived 300),
      ⟨List.Perm.refl _, by decide⟩, rfl⟩
  have h := C2_rank_invariant_amended [recB, recA] 300 15
    ([recB, recA].map (assignDerived 300)) hc
  exact ⟨h.1, h.2.1⟩

/-- C3 counterexample: the claim's stable-sort clause fails on the
code.  Rows D and E share the order date 2024-05-01 with D first in the
source, yet the load contract (line 15, `sort_values` with the default
unstable kind) also admits the output deriving from E's row before D's,
in which the tied pair does not keep its source order. -/
theorem C3_load_counterexample :
    load_data [rowD, rowE] ([rowE, rowD].map addDerived) ∧
      ¬ ([rowD, rowE].map addDerived).Sublist
          ([rowE, rowD].map addDerived) := by
  constructor
  · exact ⟨[rowE, rowD], ⟨List.Perm.swap rowD rowE [], by decide⟩, rfl⟩
  · intro h
    have heq := h.eq_of_length rfl
    injection heq with hhead _
    have hr : rowD.region = rowE.region :=
      congrArg (fun s : SaleRecord => s.region) hhead
    exact absurd hr (by decide)

/-- C3 (amended): every output `load_data` may produce is pairwise
ascending by order date (tie order unspecified, as the default sort is
not stable), projects back to a permutation of the source rows (no row
dropped, non-finite margins included), and carries `month` truncated to
the first day of the order date's calendar month and `gross_margin` =
`profit / revenue` on every record. -/
theorem C3_load_data_amended (rows : List Row) (out : List SaleRecord)
    (hload : load_data rows out) :
    out.Pairwise (fun a b => Date.le a.order_date b.order_date) ∧
      (out.map (·.toRow)).Perm rows ∧
      ∀ s ∈ out,
        s.month = ⟨s.order_date.year, s.order_date.month, 1⟩ ∧
          s.gross_margin = fdiv s.profit s.revenue := by
  obtain ⟨l, ⟨hperm, hsort⟩, rfl⟩ := hload
  refine ⟨?_, ?_, ?_⟩
  · rw [List.pairwise_map]
    exact hsort.imp (fun h => (Date.ble_iff _ _).mp h)
  · have hmap : (l.map addDerived).map (·.toRow) = l := by
      rw [List.map_map]
      exact List.map_id _
    rw [hmap]
    exact hperm
  · intro s hs
    obtain ⟨r, hr, rfl⟩ := List.mem_map.mp hs
    exact ⟨rfl, rfl⟩

/-- Witness for the amended C3: the two demo rows, already in
chronological order, satisfy the load contract as their own sort, and
record A's derived columns have the stated values. -/
theorem C3_load_data_amended_witness :
    (([rowA, rowB].map addDerived).map (·.toRow)).Perm [rowA, rowB] ∧
      recA.month = ⟨recA.order_date.year, recA.order_date.month, 1⟩ := by
  have hc : load_data [rowA, rowB] ([rowA, rowB].map addDerived) :=
    ⟨[rowA, rowB], ⟨List.Perm.refl _, by decide⟩, rfl⟩
  have h := C3_load_data_amended [rowA, rowB]
    ([rowA, rowB].map addDerived) hc
  exact ⟨h.2.1,
    (h.2.2 recA
      (List.mem_map.mpr ⟨rowA, List.mem_cons_self rowA [rowB], rfl⟩)).1⟩

/-- C7: over the full un-truncated ranked view the `contribution`
column sums to exactly 1 whenever the total revenue is nonzero. -/
theorem C7_contribution_sum (view : List SaleRecord) (h1 : view ≠ [])
    (h2 : total_revenue view ≠ 0) :
    FVal.sum
        ((rank_full view (total_revenue view)).map (·.contribution))
      = FVal.fin 1 := by
  set T := total_revenue view with hT
  have hperm : (rank_full view T).Perm (view.map (assignDerived T)) :=
    List.mergeSort_perm _ _
  have hmem : ∀ rr ∈ rank_full view T,
      rr.contribution = FVal.fin (rr.revenue / T) := by
    intro rr hrr
    obtain ⟨s, hs, rfl⟩ := List.mem_map.mp (hperm.mem_iff.mp hrr)
    show fdiv s.revenue T = FVal.fin (s.revenue / T)
    rw [fdiv, if_pos h2]
  rw [List.map_congr_left hmem, FVal.sum_map_fin_comp]
  congr 1
  rw [(hperm.map (fun rr => rr.revenue / T)).sum_eq, List.map_map]
  simp only [Function.comp_def, div_eq_mul_inv]
  rw [List.sum_map_mul_right]
  exact mul_inv_cancel₀ h2

/-- Witness for C7 on the two demo records with total revenue 300. -/
theorem C7_contribution_sum_witness :
    (([recA, recB] : List SaleRecord) ≠ []) ∧
      total_revenue [recA, recB] ≠ 0 ∧
      FVal.sum
          ((rank_full [recA, recB]
              (total_revenue [recA, recB])).map (·.contribution))
        = FVal.fin 1 :=
  ⟨by decide,
    by norm_num [total_revenue, recA, recB, addDerived, rowA, rowB],
    C7_contribution_sum [recA, recB] (by decide)
      (by norm_num [total_revenue, recA, recB, addDerived, rowA, rowB])⟩

/-- C8: the three ratio computations are total: a zero denominator
yields a non-finite extended value rather than an exception, for any
dividend, and in particular for `gross_margin` when `revenue = 0`, for
`revenue_per_unit` when `units = 0`, and for `contribution` when the
total revenue is 0. -/
theorem C8_division_never_raises :
    (∀ p : ℚ, (fdiv p 0).isFinite = false) ∧
      (∀ r : Row, r.revenue = 0 →
        ((addDerived r).gross_margin).isFinite = false) ∧
      (∀ (s : SaleRecord) (t : ℚ), s.units = 0 →
        ((assignDerived t s).revenue_per_unit).isFinite = false) ∧
      (∀ s : SaleRecord,
        ((assignDerived 0 s).contribution).isFinite = false) := by
  have hdiv : ∀ p : ℚ, (fdiv p 0).isFinite = false := by
    intro p
    unfold fdiv
    split_ifs <;> simp_all [FVal.isFinite]
  refine ⟨hdiv, ?_, ?_, ?_⟩
  · intro r h
    show (fdiv r.profit r.revenue).isFinite = false
    rw [h]
    exact hdiv r.profit
  · intro s t h
    show (fdiv s.revenue s.units).isFinite = false
    rw [h]
    exact hdiv s.revenue
  · intro s
    exact hdiv s.revenue

/-- Witness for C8: division of 1 by 0, the zero-revenue zero-unit
demo row C, and a zero total revenue all give non-finite values. -/
theorem C8_division_never_raises_witness :
    (fdiv 1 0).isFinite = false ∧
      ((addDerived rowC).gross_margin).isFinite = false ∧
      ((assignDerived 300 recC).revenue_per_unit).isFinite = false ∧
      ((assignDerived 0 recA).contribution).isFinite = false :=
  ⟨C8_division_never_raises.1 1,
    C8_division_never_raises.2.1 rowC rfl,
    C8_division_never_raises.2.2.1 recC 300 rfl,
    C8_division_never_raises.2.2.2 recA⟩

/-- C10: the mean gross margin skips NaN entries, dropping them from
both the sum and the count: when every non-NaN margin is finite and at
least one exists the KPI is their exact rational mean, while any
infinite margin entry (zero revenue with nonzero profit) is kept and
makes the KPI non-finite. -/
theorem C10_avg_gross_margin (view : List SaleRecord) (h : view ≠ []) :
    (((view.map (·.gross_margin)).filter (fun v => v ≠ FVal.nan) ≠ []) →
      (∀ v ∈ (view.map (·.gross_margin)).filter (fun v => v ≠ FVal.nan),
        v.isFinite = true) →
      avg_gross_margin view
        = FVal.fin
            ((((view.map (·.gross_margin)).filter
                  (fun v => v ≠ FVal.nan)).map FVal.toQ).sum
              / ((((view.map (·.gross_margin)).filter
                  (fun v => v ≠ FVal.nan)).length : ℚ)))) ∧
      (∀ v ∈ view.map (·.gross_margin), v.isFinite = false →
        v ≠ FVal.nan → (avg_gross_margin view).isFinite = false) := by
  constructor
  · intro hne hfin
    unfold avg_gross_margin nanmean
    have hsum : FVal.sum
        ((view.map (·.gross_margin)).filter (fun v => v ≠ FVal.nan))
        = FVal.fin
            ((((view.map (·.gross_margin)).filter
                (fun v => v ≠ FVal.nan)).map FVal.toQ).sum) := by
      conv_lhs => rw [FVal.all_finite_eq_map_fin _ hfin]
      exact FVal.sum_map_fin _
    rw [hsum]
    unfold FVal.divNat
    rw [if_neg (fun hl => hne (List.length_eq_zero.mp hl))]
  · intro v hv hnf hnn
    unfold avg_gross_margin nanmean
    apply FVal.divNat_nonfin
    exact FVal.sum_nonfin _ v
      (List.mem_filter.mpr ⟨hv, by simpa using hnn⟩) hnf

/-- Witness for C10: records A and B have finite margins 1/5 and 1/4,
so the KPI is their exact mean; adding record C (margin +∞) makes the
KPI non-finite. -/
theorem C10_avg_gross_margin_witness :
    avg_gross_margin [recA, recB]
        = FVal.fin
            (((([recA, recB].map (·.gross_margin)).filter
                  (fun v => v ≠ FVal.nan)).map FVal.toQ).sum
              / (((([recA, recB].map (·.gross_margin)).filter
                  (fun v => v ≠ FVal.nan)).length : ℚ))) ∧
      (avg_gross_margin [recA, recC]).isFinite = false :=
  ⟨(C10_avg_gross_margin [recA, recB] (by decide)).1 (by decide) (by decide),
    (C10_avg_gross_margin [recA, recC] (by decide)).2 FVal.pinf (by decide)
      (by decide) (by decide)⟩

end Dashboard
